import Mathlib

/-!
Verification of the "Add Distributor" CRUD core of the EggBucketDashboard
repository (src/pages/AddDistributor.jsx), shallowly embedded in Lean 4.

The page keeps an ordered list of distributor records, lazily initialized
from browser local storage (key "egg_distributors_v1") and serialized back
after every mutation.  A form controller validates six input fields and on
success prepends a freshly numbered record to the list; a delete action
filters a record out by id.  JavaScript numbers used as ids are modelled as
`Int`; JSON values are modelled by an explicit syntax tree `Json`; the raw
string level of local storage is abstracted into `RawVal` (either a value
that parses to a `Json` tree, or `junk` whose parse throws, which the
source catches).
-/

/-- The storage key used for persistence (`STORAGE_KEY` in the source). -/
def STORAGE_KEY : String := "egg_distributors_v1"

/-- One entry of the `ACCESS_MODULES` constant of the source. -/
structure AccessModule where
  key : String
  title : String
  desc : String
deriving DecidableEq

/-- The `ACCESS_MODULES` constant: the five selectable access modules. -/
def ACCESS_MODULES : List AccessModule :=
  [ ⟨"dailySales", "Daily Sales", "Manage daily egg sales records."⟩,
    ⟨"digitalPayments", "Digital Payments", "Process UPI and card payments."⟩,
    ⟨"cashPayments", "Cash Payments", "Log and verify cash transactions."⟩,
    ⟨"outlets", "Outlets", "Manage distribution outlets."⟩,
    ⟨"reports", "Reports", "View analytics and downloads."⟩ ]

/-- A distributor record as built by `handleSave` and as seeded by `SAMPLE`:
exactly the fields `id`, `fullName`, `phone`, `username`, `module`. -/
structure DistRecord where
  id : Int
  fullName : String
  phone : String
  username : String
  module : String
deriving DecidableEq

/-- The `SAMPLE` constant: the seed list used when storage is absent or
unusable. -/
def SAMPLE : List DistRecord :=
  [ ⟨1, "Karthik Rao", "+91 98765 12345", "karthik.rao", "dailySales"⟩ ]

/-- Model of JavaScript `String.prototype.trim`: drop whitespace from both
ends of the string. -/
def jsTrim (s : String) : String :=
  ⟨((s.data.dropWhile Char.isWhitespace).reverse.dropWhile Char.isWhitespace).reverse⟩

/-- The transient form state of the component: the six `useState` input
fields of the form controller. -/
structure Form where
  fullName : String
  phone : String
  username : String
  password : String
  confirmPassword : String
  selectedModule : String
deriving DecidableEq

/-- The form state right after mount or after `resetForm`: every field the
empty string. -/
def initialForm : Form := ⟨"", "", "", "", "", ""⟩

/-- The error object built by `validate`: in the source a plain JS object
with at most one message per field, modelled as one optional message per
field. -/
structure Errors where
  fullName : Option String := none
  phone : Option String := none
  username : Option String := none
  password : Option String := none
  confirmPassword : Option String := none
  selectedModule : Option String := none
deriving DecidableEq

/-- Emptiness of the error object (`Object.keys(e).length === 0` in the
source). -/
def Errors.isEmpty (e : Errors) : Bool :=
  e.fullName.isNone && e.phone.isNone && e.username.isNone &&
  e.password.isNone && e.confirmPassword.isNone && e.selectedModule.isNone

/-- The `validate` function of the source, translated clause by clause; the
mismatch clause overwrites an earlier `confirmPassword` message exactly as
the sequential JS assignments do. -/
def validate (f : Form) : Errors :=
  let e : Errors := {}
  let e := if jsTrim f.fullName = "" then { e with fullName := some "Full name is required." } else e
  let e := if jsTrim f.phone = "" then { e with phone := some "Phone number is required." } else e
  let e := if jsTrim f.username = "" then { e with username := some "Username is required." } else e
  let e := if f.password = "" then { e with password := some "Password is required." } else e
  let e := if f.confirmPassword = "" then { e with confirmPassword := some "Confirm the password." } else e
  let e := if f.password ≠ "" ∧ f.confirmPassword ≠ "" ∧ f.password ≠ f.confirmPassword then
             { e with confirmPassword := some "Passwords do not match." } else e
  let e := if f.selectedModule = "" then { e with selectedModule := some "Select exactly one access module." } else e
  e

/-- The id chosen for a new record in `handleSave`:
`distributors.length ? Math.max(...distributors.map(d => d.id)) + 1 : 1`. -/
def nextId (l : List DistRecord) : Int :=
  match l.map (fun d => d.id) with
  | [] => 1
  | x :: xs => xs.foldl max x + 1

/-- The record literal `newDist` built inside `handleSave`: trimmed text
fields, the selected module, and no password field. -/
def newDist (f : Form) (l : List DistRecord) : DistRecord :=
  { id := nextId l
    fullName := jsTrim f.fullName
    phone := jsTrim f.phone
    username := jsTrim f.username
    module := f.selectedModule }

/-- The `handleSave` handler: validate, and when the error object is empty
prepend the new record; otherwise return with the list unchanged.  The
result is the pair of the new distributors list and the errors state set by
`setErrors`. -/
def handleSave (f : Form) (l : List DistRecord) : List DistRecord × Errors :=
  let e := validate f
  if e.isEmpty then (newDist f l :: l, e) else (l, e)

/-- The `handleDelete` handler: when the user confirms, keep exactly the
records whose id differs from the requested one; when the confirm dialog is
dismissed, return with the list unchanged. -/
def handleDelete (l : List DistRecord) (i : Int) (confirmed : Bool) : List DistRecord :=
  if confirmed then l.filter (fun d => d.id ≠ i) else l

/-- A JSON value, the image of `JSON.parse` on the stored string. -/
inductive Json where
  | null : Json
  | bool (b : Bool) : Json
  | num (n : Int) : Json
  | str (s : String) : Json
  | arr (xs : List Json) : Json
  | obj (kvs : List (String × Json)) : Json

/-- Whether a JSON value is an array (`Array.isArray` in the source). -/
def Json.isArr : Json → Bool
  | .arr _ => true
  | _ => false

/-- The key list of a JSON object (`Object.keys`); any other value has no
keys. -/
def Json.keys : Json → List String
  | .obj kvs => kvs.map (fun kv => kv.1)
  | _ => []

/-- Lookup of a field in a JSON object by key (first match, as JS property
access on the parsed object). -/
def Json.getField : Json → String → Option Json
  | .obj kvs, k => (kvs.find? (fun kv => kv.1 = k)).map (fun kv => kv.2)
  | _, _ => none

/-- Serialization of one distributor record, as `JSON.stringify` renders the
object literal built by `handleSave` (and the `SAMPLE` literals): the five
fields in declaration order and nothing else. -/
def recToJson (r : DistRecord) : Json :=
  .obj [ ("id", .num r.id), ("fullName", .str r.fullName),
         ("phone", .str r.phone), ("username", .str r.username),
         ("module", .str r.module) ]

/-- Reading one distributor record back out of a parsed JSON value, by the
field accesses the page performs on loaded elements. -/
def recOfJson (j : Json) : Option DistRecord := do
  let .num i ← j.getField "id" | none
  let .str fn ← j.getField "fullName" | none
  let .str ph ← j.getField "phone" | none
  let .str un ← j.getField "username" | none
  let .str md ← j.getField "module" | none
  pure ⟨i, fn, ph, un, md⟩

/-- Reading a whole list of parsed JSON elements back as distributor
records, element by element. -/
def decodeList : List Json → Option (List DistRecord)
  | [] => some []
  | j :: js => do
    let r ← recOfJson j
    let rs ← decodeList js
    pure (r :: rs)

/-- Serialization of the whole distributors list, as the persistence
`useEffect` writes `JSON.stringify(distributors)` under the storage key. -/
def serializeList (l : List DistRecord) : Json :=
  .arr (l.map recToJson)

/-- A raw stored string, abstracted to what matters to `JSON.parse`: either
it parses to a JSON value, or parsing throws (`junk`). -/
inductive RawVal where
  | junk : RawVal
  | json (j : Json) : RawVal

/-- Model of `JSON.parse` on a raw stored value: `junk` throws, modelled as
`Except.error`. -/
def jsonParse : RawVal → Except Unit Json
  | .junk => .error ()
  | .json j => .ok j

/-- The seed list as it exists in memory in the source: the `SAMPLE` array
of JS objects. -/
def sampleJson : List Json := SAMPLE.map recToJson

/-- The `useState` lazy initializer of `distributors`: read the stored
value; when absent return `SAMPLE`; when `JSON.parse` throws, catch and
return `SAMPLE`; when the parsed value is not an array return `SAMPLE`;
otherwise return the parsed array itself. -/
def load (stored : Option RawVal) : List Json :=
  match stored with
  | none => sampleJson
  | some raw =>
    match jsonParse raw with
    | .error _ => sampleJson
    | .ok j =>
      match j with
      | .arr xs => xs
      | _ => sampleJson

/-- The derived metrics of the page: total count and count of records whose
module is `dailySales`. -/
def metrics (l : List DistRecord) : Nat × Nat :=
  (l.length, (l.filter (fun d => d.module = "dailySales")).length)

/-- The mutable state of the page that the claims are about: the persisted
distributors list and the transient form fields. -/
structure AppState where
  distributors : List DistRecord
  form : Form

/-- One UI event of the page, as wired in the JSX: the five text inputs
write arbitrary strings, a `RadioTile` click writes the key of one of the
`ACCESS_MODULES`, Cancel (and the post-save timeout) runs `resetForm`,
form submission runs `handleSave`, and the per-item Delete button runs
`handleDelete`. -/
inductive Step : AppState → AppState → Prop
  | setFullName (st : AppState) (s : String) :
      Step st ⟨st.distributors, { st.form with fullName := s }⟩
  | setPhone (st : AppState) (s : String) :
      Step st ⟨st.distributors, { st.form with phone := s }⟩
  | setUsername (st : AppState) (s : String) :
      Step st ⟨st.distributors, { st.form with username := s }⟩
  | setPassword (st : AppState) (s : String) :
      Step st ⟨st.distributors, { st.form with password := s }⟩
  | setConfirmPassword (st : AppState) (s : String) :
      Step st ⟨st.distributors, { st.form with confirmPassword := s }⟩
  | selectModule (st : AppState) (m : AccessModule) (h : m ∈ ACCESS_MODULES) :
      Step st ⟨st.distributors, { st.form with selectedModule := m.key }⟩
  | resetForm (st : AppState) :
      Step st ⟨st.distributors, initialForm⟩
  | save (st : AppState) :
      Step st ⟨(handleSave st.form st.distributors).1, st.form⟩
  | delete (st : AppState) (i : Int) (c : Bool) :
      Step st ⟨handleDelete st.distributors i c, st.form⟩

/-- States reachable by the program: the initial mount with absent or
unusable storage seeds `SAMPLE`; any UI event may fire; and a fresh mount
may re-run the initializer on the storage contents the previous state
persisted (the single-tab model of the source: nothing else writes the
key). -/
inductive Reachable : AppState → Prop
  | init : Reachable ⟨SAMPLE, initialForm⟩
  | step {st st' : AppState} : Reachable st → Step st st' → Reachable st'
  | reload {st : AppState} {l : List DistRecord} :
      Reachable st →
      decodeList (load (some (.json (serializeList st.distributors)))) = some l →
      Reachable ⟨l, initialForm⟩

/-- The record-list invariant of the spec: pairwise distinct ids, and every
module a non-empty key of the fixed `ACCESS_MODULES` set. -/
abbrev GoodList (l : List DistRecord) : Prop :=
  (l.map (fun r => r.id)).Nodup ∧
  ∀ r ∈ l, r.module ≠ "" ∧ r.module ∈ ACCESS_MODULES.map (fun m => m.key)

/-- The form-side invariant: the selected module is either still unset or
one of the fixed keys (the UI writes nothing else into it). -/
abbrev GoodForm (f : Form) : Prop :=
  f.selectedModule = "" ∨ f.selectedModule ∈ ACCESS_MODULES.map (fun m => m.key)

section Lemmas

lemma le_foldl_max (xs : List Int) (x : Int) : x ≤ xs.foldl max x := by
  induction xs generalizing x with
  | nil => exact le_refl x
  | cons a as ih => exact le_trans (le_max_left x a) (ih (max x a))

lemma mem_le_foldl_max {y : Int} {xs : List Int} (hy : y ∈ xs) (x : Int) :
    y ≤ xs.foldl max x := by
  induction xs generalizing x with
  | nil => cases hy
  | cons a as ih =>
    rcases List.mem_cons.mp hy with h | h
    · subst h
      exact le_trans (le_max_right x y) (le_foldl_max as (max x y))
    · exact ih h (max x a)

lemma foldl_max_mem (xs : List Int) (x : Int) :
    xs.foldl max x = x ∨ xs.foldl max x ∈ xs := by
  induction xs generalizing x with
  | nil => exact Or.inl rfl
  | cons a as ih =>
    rcases ih (max x a) with h | h
    · rcases max_cases x a with ⟨he, _⟩ | ⟨he, _⟩
      · left
        simp only [List.foldl_cons]
        rw [h, he]
      · right
        simp only [List.foldl_cons]
        rw [h, he]
        exact List.mem_cons_self a as
    · exact Or.inr (List.mem_cons_of_mem a h)

lemma id_lt_nextId {r : DistRecord} {l : List DistRecord} (hr : r ∈ l) :
    r.id < nextId l := by
  cases l with
  | nil => cases hr
  | cons d ds =>
    have : r.id ≤ (ds.map (fun d => d.id)).foldl max d.id := by
      rcases List.mem_cons.mp hr with h | h
      · subst h; exact le_foldl_max _ _
      · exact mem_le_foldl_max (List.mem_map_of_mem _ h) _
    have hlt : r.id < (ds.map (fun d => d.id)).foldl max d.id + 1 :=
      lt_of_le_of_lt this (lt_add_one _)
    simpa [nextId] using hlt

end Lemmas

section Lemmas2

set_option maxHeartbeats 1000000 in
lemma validate_eq (f : Form) :
    validate f =
      { fullName := if jsTrim f.fullName = "" then some "Full name is required." else none
        phone := if jsTrim f.phone = "" then some "Phone number is required." else none
        username := if jsTrim f.username = "" then some "Username is required." else none
        password := if f.password = "" then some "Password is required." else none
        confirmPassword :=
          if f.password ≠ "" ∧ f.confirmPassword ≠ "" ∧ f.password ≠ f.confirmPassword then
            some "Passwords do not match."
          else if f.confirmPassword = "" then some "Confirm the password." else none
        selectedModule :=
          if f.selectedModule = "" then some "Select exactly one access module." else none } := by
  simp only [validate]
  split_ifs <;> rfl

lemma validate_isEmpty_iff (f : Form) :
    (validate f).isEmpty = true ↔
      jsTrim f.fullName ≠ "" ∧ jsTrim f.phone ≠ "" ∧ jsTrim f.username ≠ "" ∧
      f.password ≠ "" ∧ f.confirmPassword ≠ "" ∧ f.password = f.confirmPassword ∧
      f.selectedModule ≠ "" := by
  rw [validate_eq]
  simp only [Errors.isEmpty, Bool.and_eq_true, Option.isNone_iff_eq_none]
  split_ifs <;> simp_all

lemma recOfJson_recToJson (r : DistRecord) : recOfJson (recToJson r) = some r := rfl

lemma decodeList_map (l : List DistRecord) :
    decodeList (l.map recToJson) = some l := by
  induction l with
  | nil => rfl
  | cons r rs ih => simp [decodeList, recOfJson_recToJson, ih]

lemma load_serialize (l : List DistRecord) :
    load (some (.json (serializeList l))) = l.map recToJson := rfl

lemma step_preserves {st st' : AppState} (h : Step st st')
    (hl : GoodList st.distributors) (hf : GoodForm st.form) :
    GoodList st'.distributors ∧ GoodForm st'.form := by
  cases h with
  | setFullName s => exact ⟨hl, hf⟩
  | setPhone s => exact ⟨hl, hf⟩
  | setUsername s => exact ⟨hl, hf⟩
  | setPassword s => exact ⟨hl, hf⟩
  | setConfirmPassword s => exact ⟨hl, hf⟩
  | selectModule m hm => exact ⟨hl, Or.inr (List.mem_map_of_mem _ hm)⟩
  | resetForm => exact ⟨hl, Or.inl rfl⟩
  | save =>
    refine ⟨?_, hf⟩
    show GoodList (handleSave st.form st.distributors).1
    simp only [handleSave]
    by_cases he : (validate st.form).isEmpty = true
    · rw [if_pos he]
      have hmod : st.form.selectedModule ≠ "" :=
        ((validate_isEmpty_iff st.form).mp he).2.2.2.2.2.2
      have hmodMem : st.form.selectedModule ∈ ACCESS_MODULES.map (fun m => m.key) :=
        hf.resolve_left hmod
      constructor
      · refine List.nodup_cons.mpr ⟨?_, hl.1⟩
        intro hmem
        rcases List.mem_map.mp hmem with ⟨r, hr, hid⟩
        exact absurd hid (ne_of_lt (id_lt_nextId hr))
      · intro r hr
        rcases List.mem_cons.mp hr with h | h
        · subst h
          exact ⟨hmod, hmodMem⟩
        · exact hl.2 r h
    · rw [if_neg he]
      exact hl
  | delete i c =>
    refine ⟨?_, hf⟩
    show GoodList (handleDelete st.distributors i c)
    simp only [handleDelete]
    by_cases hc : c = true
    · rw [if_pos hc]
      constructor
      · exact hl.1.sublist ((List.filter_sublist _).map _)
      · intro r hr
        exact hl.2 r (List.mem_of_mem_filter hr)
    · rw [if_neg hc]
      exact hl

lemma reachable_inv {st : AppState} (h : Reachable st) :
    GoodList st.distributors ∧ GoodForm st.form := by
  induction h with
  | init =>
    refine ⟨⟨?_, ?_⟩, Or.inl rfl⟩
    · decide
    · intro r hr
      simp only [SAMPLE, List.mem_singleton] at hr
      subst hr
      exact ⟨by decide, by decide⟩
  | step hst hstep ih => exact step_preserves hstep ih.1 ih.2
  | reload hst hm ih =>
    rw [load_serialize, decodeList_map] at hm
    cases Option.some.inj hm
    exact ⟨ih.1, Or.inl rfl⟩

end Lemmas2

lemma filter_ne_length {l : List DistRecord} {i : Int}
    (hnd : (l.map (fun r => r.id)).Nodup) (hex : ∃ r ∈ l, r.id = i) :
    (l.filter (fun d => d.id ≠ i)).length + 1 = l.length := by
  induction l with
  | nil =>
    rcases hex with ⟨r, hr, _⟩
    cases hr
  | cons d ds ih =>
    simp only [List.map_cons, List.nodup_cons] at hnd
    rcases hex with ⟨r, hr, hid⟩
    rcases List.mem_cons.mp hr with h | h
    · subst h
      have hds : ∀ x ∈ ds, x.id ≠ i := by
        intro x hx hxi
        exact hnd.1 (by rw [hid, ← hxi]; exact List.mem_map_of_mem _ hx)
      rw [List.filter_cons, if_neg (by simp [hid])]
      rw [List.filter_eq_self.mpr (fun x hx => by simpa using hds x hx)]
      simp
    · have hdi : d.id ≠ i := by
        intro hd
        exact hnd.1 (by rw [hd, ← hid]; exact List.mem_map_of_mem _ h)
      have hrec := ih hnd.2 ⟨r, h, hid⟩
      rw [List.filter_cons, if_pos (by simpa using hdi)]
      simp only [List.length_cons]
      omega

/-- C1: for every form state with non-empty trimmed fullName, phone and
username, non-empty equal password and confirmPassword, and a selected
module, `handleSave` prepends exactly one new record whose id is
`max(existing ids) + 1` (or 1 on the empty list), strictly greater than
every existing id, and whose module is the selected module. -/
theorem C1_handleSave_valid_adds_one (f : Form) (l : List DistRecord)
    (h1 : jsTrim f.fullName ≠ "") (h2 : jsTrim f.phone ≠ "")
    (h3 : jsTrim f.username ≠ "") (h4 : f.password ≠ "")
    (h5 : f.confirmPassword = f.password) (h6 : f.selectedModule ≠ "") :
    (handleSave f l).1 = newDist f l :: l ∧
    (l = [] → (newDist f l).id = 1) ∧
    (∀ r ∈ l, r.id < (newDist f l).id) ∧
    (l ≠ [] → ((newDist f l).id - 1) ∈ l.map (fun r => r.id) ∧
      ∀ r ∈ l, r.id ≤ (newDist f l).id - 1) ∧
    (newDist f l).module = f.selectedModule := by
  have hcne : f.confirmPassword ≠ "" := by rw [h5]; exact h4
  have he : (validate f).isEmpty = true :=
    (validate_isEmpty_iff f).mpr ⟨h1, h2, h3, h4, hcne, h5.symm, h6⟩
  refine ⟨?_, ?_, ?_, ?_, rfl⟩
  · simp only [handleSave]
    rw [if_pos he]
  · intro h
    subst h
    rfl
  · intro r hr
    exact id_lt_nextId hr
  · intro hne
    constructor
    · show (nextId l - 1) ∈ l.map (fun r => r.id)
      cases l with
      | nil => exact absurd rfl hne
      | cons d ds =>
        simp only [nextId, List.map_cons, add_sub_cancel_right]
        rcases foldl_max_mem (ds.map fun d => d.id) d.id with h | h
        · rw [h]
          exact List.mem_cons_self _ _
        · exact List.mem_cons_of_mem _ h
    · intro r hr
      have := id_lt_nextId hr
      show r.id ≤ nextId l - 1
      omega

/-- C1 witness: the concrete scenario of the spec on the empty list. -/
theorem C1_witness :
    (handleSave ⟨"A B", "123", "ab", "x", "x", "reports"⟩ []).1 =
      [{ id := 1, fullName := "A B", phone := "123", username := "ab", module := "reports" }] := by
  have h := C1_handleSave_valid_adds_one ⟨"A B", "123", "ab", "x", "x", "reports"⟩ []
    (by decide) (by decide) (by decide) (by decide) rfl (by decide)
  rw [h.1]
  rfl

/-- C2 counterexample: on a list holding two records that share id 1,
`handleDelete` of id 1 removes both of them, not exactly one. -/
theorem C2_counterexample :
    handleDelete [⟨1, "a", "p", "u", "dailySales"⟩, ⟨1, "b", "q", "v", "reports"⟩] 1 true = [] ∧
    ([(⟨1, "a", "p", "u", "dailySales"⟩ : DistRecord), ⟨1, "b", "q", "v", "reports"⟩]).length = 2 := by
  exact ⟨rfl, rfl⟩

/-- C2 (amended): on a list with pairwise distinct ids, `handleDelete`
(after confirmation) keeps a subsequence of the list (so order and ids of
survivors are unchanged), keeps every record with a different id, drops
every record with the requested id, and when the id is present removes
exactly one record. -/
theorem C2_handleDelete_unique_ids (l : List DistRecord) (i : Int)
    (hnd : (l.map (fun r => r.id)).Nodup) :
    List.Sublist (handleDelete l i true) l ∧
    (∀ r ∈ l, r.id ≠ i → r ∈ handleDelete l i true) ∧
    (∀ r ∈ handleDelete l i true, r.id ≠ i) ∧
    ((∃ r ∈ l, r.id = i) → (handleDelete l i true).length + 1 = l.length) := by
  simp only [handleDelete, if_pos]
  refine ⟨List.filter_sublist _, ?_, ?_, ?_⟩
  · intro r hr hne
    exact List.mem_filter.mpr ⟨hr, by simpa using hne⟩
  · intro r hr
    have := (List.mem_filter.mp hr).2
    simpa using this
  · intro hex
    exact filter_ne_length hnd hex

/-- C2 witness: deleting id 1 from a two-record list with distinct ids 1
and 2 removes exactly the matching record. -/
theorem C2_witness :
    (∀ r ∈ handleDelete [(⟨1, "a", "p", "u", "dailySales"⟩ : DistRecord),
        ⟨2, "b", "q", "v", "reports"⟩] 1 true, r.id ≠ 1) ∧
    (handleDelete [(⟨1, "a", "p", "u", "dailySales"⟩ : DistRecord),
        ⟨2, "b", "q", "v", "reports"⟩] 1 true).length + 1 =
      ([(⟨1, "a", "p", "u", "dailySales"⟩ : DistRecord), ⟨2, "b", "q", "v", "reports"⟩]).length := by
  have h := C2_handleDelete_unique_ids
    [⟨1, "a", "p", "u", "dailySales"⟩, ⟨2, "b", "q", "v", "reports"⟩] 1 (by decide)
  exact ⟨h.2.2.1, h.2.2.2 ⟨⟨1, "a", "p", "u", "dailySales"⟩, by simp, rfl⟩⟩

/-- C3: in every state reachable through the store operations (seeded
initial load, UI edits, saves, deletes, and reloads of what was persisted),
the distributors list has pairwise distinct ids and every record's module
is a non-empty key of the fixed `ACCESS_MODULES` set. -/
theorem C3_reachable_invariant (st : AppState) (h : Reachable st) :
    (st.distributors.map (fun r => r.id)).Nodup ∧
    ∀ r ∈ st.distributors, r.module ≠ "" ∧ r.module ∈ ACCESS_MODULES.map (fun m => m.key) :=
  (reachable_inv h).1

/-- C3 witness: the initial state satisfies the invariant. -/
theorem C3_witness :
    (SAMPLE.map (fun r => r.id)).Nodup ∧
    ∀ r ∈ SAMPLE, r.module ≠ "" ∧ r.module ∈ ACCESS_MODULES.map (fun m => m.key) :=
  C3_reachable_invariant ⟨SAMPLE, initialForm⟩ Reachable.init

/-- C4: any empty required field, or a missing module selection, makes
`validate` return a non-empty error object and `handleSave` leave the list
unchanged. -/
theorem C4_empty_field_blocks (f : Form) (l : List DistRecord)
    (h : f.fullName = "" ∨ f.phone = "" ∨ f.username = "" ∨ f.password = "" ∨
         f.confirmPassword = "" ∨ f.selectedModule = "") :
    (validate f).isEmpty = false ∧ (handleSave f l).1 = l := by
  have hne : ¬((validate f).isEmpty = true) := by
    rw [validate_isEmpty_iff]
    rintro ⟨h1, h2, h3, h4, h5, h6, h7⟩
    rcases h with h | h | h | h | h | h
    · exact h1 (by rw [h]; decide)
    · exact h2 (by rw [h]; decide)
    · exact h3 (by rw [h]; decide)
    · exact h4 h
    · exact h5 h
    · exact h7 h
  constructor
  · cases hb : (validate f).isEmpty with
    | false => rfl
    | true => exact absurd hb hne
  · simp only [handleSave]
    rw [if_neg hne]

/-- C4 witness: the all-empty initial form is rejected and the seed list is
untouched. -/
theorem C4_witness :
    (validate initialForm).isEmpty = false ∧ (handleSave initialForm SAMPLE).1 = SAMPLE :=
  C4_empty_field_blocks initialForm SAMPLE (Or.inl rfl)

/-- C5 counterexample: with an empty password and a non-empty
confirmPassword the two differ, yet `validate` reports no confirmPassword
error (only a password error), refuting the claim as stated. -/
theorem C5_counterexample :
    (⟨"A", "1", "u", "", "x", "dailySales"⟩ : Form).password ≠
      (⟨"A", "1", "u", "", "x", "dailySales"⟩ : Form).confirmPassword ∧
    (validate ⟨"A", "1", "u", "", "x", "dailySales"⟩).confirmPassword = none := by
  exact ⟨by decide, rfl⟩

/-- C5 (amended): when the password is non-empty and differs from
confirmPassword, `validate` reports a confirmPassword error, the error
object is non-empty, and `handleSave` leaves the list unchanged. -/
theorem C5_password_mismatch_blocks (f : Form) (l : List DistRecord)
    (hp : f.password ≠ "") (hne : f.password ≠ f.confirmPassword) :
    (validate f).confirmPassword ≠ none ∧ (validate f).isEmpty = false ∧
    (handleSave f l).1 = l := by
  have hcp : (validate f).confirmPassword ≠ none := by
    rw [validate_eq]
    show (if f.password ≠ "" ∧ f.confirmPassword ≠ "" ∧ f.password ≠ f.confirmPassword then
            some "Passwords do not match."
          else if f.confirmPassword = "" then some "Confirm the password." else none) ≠ none
    by_cases hc : f.confirmPassword = ""
    · rw [if_neg (by rintro ⟨_, hcc, _⟩; exact hcc hc), if_pos hc]
      exact Option.some_ne_none _
    · rw [if_pos ⟨hp, hc, hne⟩]
      exact Option.some_ne_none _
  have hnot : ¬((validate f).isEmpty = true) := fun hb =>
    hne ((validate_isEmpty_iff f).mp hb).2.2.2.2.2.1
  refine ⟨hcp, ?_, ?_⟩
  · cases hb : (validate f).isEmpty with
    | false => rfl
    | true => exact absurd hb hnot
  · simp only [handleSave]
    rw [if_neg hnot]

/-- C5 witness: a concrete non-empty mismatched pair is rejected with a
confirmPassword error and adds nothing. -/
theorem C5_witness :
    (validate ⟨"A", "1", "u", "x", "y", "dailySales"⟩).confirmPassword ≠ none ∧
    (handleSave ⟨"A", "1", "u", "x", "y", "dailySales"⟩ []).1 = [] := by
  have h := C5_password_mismatch_blocks ⟨"A", "1", "u", "x", "y", "dailySales"⟩ []
    (by decide) (by decide)
  exact ⟨h.1, h.2.2⟩

/-- C6: serializing any distributors list the way the persistence effect
does and reloading it through the load logic yields a list identical to the
original. -/
theorem C6_roundtrip (l : List DistRecord) :
    decodeList (load (some (RawVal.json (serializeList l)))) = some l := by
  rw [load_serialize]
  exact decodeList_map l

/-- C7: the record built by `handleSave` does not depend on the password
inputs, its serialized object has exactly the keys id, fullName, phone,
username and module, and nothing persisted for any list carries a
"password" key. -/
theorem C7_no_password_persisted (f : Form) (l : List DistRecord) (pw cpw : String) :
    newDist { f with password := pw, confirmPassword := cpw } l = newDist f l ∧
    (recToJson (newDist f l)).keys = ["id", "fullName", "phone", "username", "module"] ∧
    "password" ∉ (recToJson (newDist f l)).keys ∧
    ∀ j ∈ l.map recToJson, "password" ∉ j.keys := by
  have hk : ∀ r : DistRecord,
      (recToJson r).keys = ["id", "fullName", "phone", "username", "module"] :=
    fun r => rfl
  refine ⟨rfl, hk _, ?_, ?_⟩
  · rw [hk]
    decide
  · intro j hj
    rcases List.mem_map.mp hj with ⟨r, _, hr⟩
    subst hr
    show "password" ∉ (recToJson r).keys
    rw [hk]
    decide

/-- C7 witness: concrete password inputs do not change the built record and
its serialization carries no password key. -/
theorem C7_witness :
    newDist ⟨"A", "1", "u", "secret", "secret", "reports"⟩ [] =
      newDist ⟨"A", "1", "u", "", "", "reports"⟩ [] ∧
    "password" ∉ (recToJson (newDist ⟨"A", "1", "u", "", "", "reports"⟩ [])).keys := by
  have h := C7_no_password_persisted ⟨"A", "1", "u", "", "", "reports"⟩ [] "secret" "secret"
  exact ⟨h.1, h.2.2.1⟩

/-- C8: when the storage key is absent or its value fails to parse as JSON,
the initial load returns the seed record list; load is a total function and
never propagates the parse exception. -/
theorem C8_load_fallback (s : Option RawVal) (h : s = none ∨ s = some RawVal.junk) :
    load s = sampleJson := by
  rcases h with h | h <;> subst h <;> rfl

/-- C8 witness: the absent-key case yields the seed list. -/
theorem C8_witness : load none = sampleJson :=
  C8_load_fallback none (Or.inl rfl)

/-- C9: password validation uses the raw untrimmed value: a non-empty
all-whitespace password that matches confirmPassword, with all other fields
valid, passes validation and the record is added. -/
theorem C9_whitespace_password_accepted (f : Form) (l : List DistRecord)
    (hp : f.password ≠ "") (hw : jsTrim f.password = "")
    (hc : f.confirmPassword = f.password)
    (h1 : jsTrim f.fullName ≠ "") (h2 : jsTrim f.phone ≠ "")
    (h3 : jsTrim f.username ≠ "") (h6 : f.selectedModule ≠ "") :
    validate f = {} ∧ (handleSave f l).1 = newDist f l :: l := by
  have hcne : f.confirmPassword ≠ "" := by rw [hc]; exact hp
  have he : (validate f).isEmpty = true :=
    (validate_isEmpty_iff f).mpr ⟨h1, h2, h3, hp, hcne, hc.symm, h6⟩
  constructor
  · rw [validate_eq]
    have hmis : ¬(f.password ≠ "" ∧ f.confirmPassword ≠ "" ∧ f.password ≠ f.confirmPassword) := by
      rintro ⟨_, _, hne⟩
      exact hne hc.symm
    rw [if_neg h1, if_neg h2, if_neg h3, if_neg hp, if_neg hmis, if_neg hcne, if_neg h6]
  · simp only [handleSave]
    rw [if_pos he]

/-- C9 witness: a single-space password equal to its confirmation is
accepted and the record is prepended. -/
theorem C9_witness :
    validate ⟨"A", "1", "u", " ", " ", "dailySales"⟩ = {} ∧
    (handleSave ⟨"A", "1", "u", " ", " ", "dailySales"⟩ []).1 =
      newDist ⟨"A", "1", "u", " ", " ", "dailySales"⟩ [] :: [] :=
  C9_whitespace_password_accepted ⟨"A", "1", "u", " ", " ", "dailySales"⟩ []
    (by decide) (by decide) rfl (by decide) (by decide) (by decide) (by decide)

/-- C10: a stored value that parses successfully but is not a JSON array
(object, number, string, boolean or null) also makes the initial load fall
back to the seed list. -/
theorem C10_nonarray_fallback (j : Json) (h : j.isArr = false) :
    load (some (RawVal.json j)) = sampleJson := by
  cases j with
  | arr xs => simp [Json.isArr] at h
  | null => rfl
  | bool b => rfl
  | num n => rfl
  | str s => rfl
  | obj kvs => rfl

/-- C10 witness: a stored JSON number yields the seed list. -/
theorem C10_witness : load (some (RawVal.json (Json.num 5))) = sampleJson :=
  C10_nonarray_fallback (Json.num 5) rfl
